import Mathlib

/-!
Verification of the Mach multi-instrument build orchestrator against its
natural-language specification.

The development shallowly embeds the relevant pieces of the TypeScript
source (`index.ts`, `src/mach.ts`, `src/esbuild.ts`, `src/plugins.ts`,
`src/types.ts`) as executable Lean functions and proves or refutes the
frozen claims about them.  External collaborators (the esbuild bundler,
the chokidar watcher, the filesystem) are modelled as oracles or as
explicit action lists, exactly at the interface the source consumes.
-/

set_option autoImplicit false

namespace Mach

/-! ## Data model (src/types.ts)

`PackageSettings` is a tagged union over `type ∈ {react, baseInstrument}`.
The `templateName` field appears in the zod schema (optional string) even
though the TS interface omits it; it is kept here because it participates
in validation. -/

inductive SimulatorPackage where
  /-- `type: "react"` variant of the package settings union. -/
  | react (fileName : Option String) (templateName : Option String)
      (imports : Option (List String)) (templateId : Option String)
      (isInteractive : Option Bool)
  /-- `type: "baseInstrument"` variant of the package settings union. -/
  | baseInstrument (fileName : Option String) (templateName : Option String)
      (imports : Option (List String)) (templateId : String)
      (mountElementId : String)
deriving Repr, DecidableEq

/-- The shared `fileName` field of both package-settings variants. -/
def SimulatorPackage.fileName : SimulatorPackage → Option String
  | .react fn _ _ _ _ => fn
  | .baseInstrument fn _ _ _ _ => fn

/-- The discriminant test `simulatorPackage.type === "react"`. -/
def SimulatorPackage.isReact : SimulatorPackage → Bool
  | .react _ _ _ _ _ => true
  | .baseInstrument _ _ _ _ _ => false

/-- `Instrument` from `src/types.ts`: a named build unit with entry point
`index`, optional simulator-package settings, optional nested submodules
and the optional `resolve` import specifier used when the instrument is a
submodule.  The tree is finite by construction. -/
inductive Instrument where
  | mk (name : String) (index : String)
      (simulatorPackage : Option SimulatorPackage)
      (modules : Option (List Instrument))
      (resolve : Option String)

def Instrument.name : Instrument → String
  | .mk n _ _ _ _ => n

def Instrument.index : Instrument → String
  | .mk _ i _ _ _ => i

def Instrument.simulatorPackage : Instrument → Option SimulatorPackage
  | .mk _ _ sp _ _ => sp

def Instrument.modules : Instrument → Option (List Instrument)
  | .mk _ _ _ ms _ => ms

def Instrument.resolve : Instrument → Option String
  | .mk _ _ _ _ r => r

/-- `MachConfig` from `src/types.ts`.  The optional `esbuild` field holds
opaque overrides for the external bundler and is consumed only by
`getBuildOptions`, which is outside the modelled claims, so it is not
carried here. -/
structure MachConfig where
  packageName : String
  packageDir : String
  instruments : List Instrument

/-- `MachArgs` from `src/types.ts`.  The `filter` regular expression is
modelled by its observable behaviour, the `test` predicate on names. -/
structure MachArgs where
  config : MachConfig
  bundles : Option String := none
  werror : Option Bool := none
  filter : Option (String → Bool) := none
  minify : Option Bool := none
  verbose : Option Bool := none
  outputMetafile : Option Bool := none
  outputSourcemaps : Option Bool := none
  skipSimulatorPackage : Option Bool := none

/-! ## Run aggregator (src/mach.ts `machBuild`, src/index.ts `build` action) -/

/-- The instrument filter applied by `machBuild` and `machWatch`:
`args.config.instruments.filter((instrument) => args.filter?.test(instrument.name) ?? true)`. -/
def filteredInstruments (instruments : List Instrument)
    (filter : Option (String → Bool)) : List Instrument :=
  instruments.filter fun instrument =>
    match filter with
    | some test => test instrument.name
    | none => true

/-- Per-instrument settled status of `machBuild`'s `Promise.allSettled`:
`true` stands for `"fulfilled"` (the instrument built), `false` for
`"rejected"`.  The outcome of each `buildInstrument` call is an oracle,
since the bundler is external. -/
def machBuildStatuses (args : MachArgs) (fulfilled : Instrument → Bool) :
    List Bool :=
  (filteredInstruments args.config.instruments args.filter).map fulfilled

/-- The `build` CLI action from `index.ts`:
`numInstruments` is `parsedArgs.config.instruments.length` (the *unfiltered*
count), `numSuccess` counts the `"fulfilled"` results of `machBuild`, and the
process exits non-zero iff `numSuccess < numInstruments`. -/
def buildActionExitNonzero (args : MachArgs) (fulfilled : Instrument → Bool) :
    Bool :=
  let numInstruments := args.config.instruments.length
  let results := machBuildStatuses args fulfilled
  let numSuccess := (results.filter id).length
  numSuccess < numInstruments

/-- A two-instrument configuration used to exercise the exit-code logic. -/
def twoInstrumentConfig : MachConfig :=
  { packageName := "pkg"
    packageDir := "PackageSources"
    instruments :=
      [ .mk "A" "src/A/index.tsx" none none none,
        .mk "B" "src/B/index.tsx" none none none ] }

/-- Arguments selecting only instrument `"A"` out of `{A, B}`. -/
def filterOnlyAArgs : MachArgs :=
  { config := twoInstrumentConfig
    filter := some (fun name => name == "A") }

/-- Configuration with the three instruments of the spec's filter example. -/
def threeInstrumentConfig : MachConfig :=
  { packageName := "pkg"
    packageDir := "PackageSources"
    instruments :=
      [ .mk "DisplayUnits" "src/DisplayUnits/index.tsx" none none none,
        .mk "CTP" "src/CTP/index.tsx" none none none,
        .mk "ISI" "src/ISI/index.tsx" none none none ] }

end Mach

namespace Legacy

/-! ## Instrument build driver (`buildInstrument`, src/esbuild.ts)

This is the driver that builds nested submodules before the parent: it
recursively builds every entry of `instrument.modules` (as independent
submodule builds), returns the first submodule result carrying errors
without ever invoking the bundler on the parent, disposes the submodule
rebuild handles otherwise, and only then bundles the parent itself. -/

/-- A structured esbuild diagnostic; only the fields the driver passes
through are modelled. -/
structure Message where
  text : String
deriving Repr, DecidableEq

/-- The slice of an esbuild `BuildResult` the driver inspects: a build
failed exactly when `errors` is non-empty (`res.errors.length > 0`). -/
structure BuildRes where
  errors : List Message
deriving Repr, DecidableEq

/-- `Instrument` from the driver's `src/types.ts`: `name`, `directory`,
optional `input` entry override, optional extra `imports`, optional
`skipPackageSources`, optional nested `modules`, and the import specifier
(field `import`, written `imprt` since `import` is reserved). -/
inductive Instrument where
  | mk (name : String) (directory : String) (input : Option String)
      (imports : Option (List String)) (skipPackageSources : Option Bool)
      (modules : Option (List Instrument)) (imprt : Option String)

def Instrument.name : Instrument → String
  | .mk n _ _ _ _ _ _ => n

def Instrument.modules : Instrument → Option (List Instrument)
  | .mk _ _ _ _ _ ms _ => ms

mutual

/-- `buildInstrument` from src/esbuild.ts, with the external `build`
invocation (the esbuild bundler plus plugin assembly) abstracted as the
oracle `bundler`.  The second component records, in order, every
instrument the bundler is actually invoked on.

Source shape: when `instrument.modules` is set, all submodules are built
(the `Promise.all` awaits every one of them), the loop over
`moduleResults` returns the first result with `res.errors.length > 0`
as the parent's own result, and only when no submodule failed is
`build(instrument, …)` invoked. -/
def buildInstrument (bundler : Instrument → BuildRes) :
    Instrument → BuildRes × List Instrument
  | i@(.mk _ _ _ _ _ mods _) =>
    match mods with
    | none => (bundler i, [i])
    | some ms =>
      let rs := buildList bundler ms
      let trace := (rs.map Prod.snd).flatten
      match (rs.map Prod.fst).find? (fun res => !res.errors.isEmpty) with
      | some res => (res, trace)
      | none => (bundler i, trace ++ [i])

/-- `instrument.modules.map((module) => buildInstrument(module, logger, true))`. -/
def buildList (bundler : Instrument → BuildRes) :
    List Instrument → List (BuildRes × List Instrument)
  | [] => []
  | i :: is => buildInstrument bundler i :: buildList bundler is

end

/-- Bundler oracle for the concrete fail-fast scenario: the submodule named
`FailMod` fails with one structured error, everything else succeeds. -/
def failingBundler : Instrument → BuildRes := fun j =>
  if j.name = "FailMod" then ⟨[⟨"Could not resolve entry"⟩]⟩ else ⟨[]⟩

/-- A submodule that builds successfully. -/
def goodChild : Instrument :=
  .mk "GoodMod" "./good" none none none none (some "@mods/good")

/-- A submodule configured to fail under `failingBundler`. -/
def failChild : Instrument :=
  .mk "FailMod" "./fail" none none none none (some "@mods/fail")

/-- A parent instrument with two submodules, one of which fails. -/
def parentWithFailingModule : Instrument :=
  .mk "Parent" "./parent" none none none (some [goodChild, failChild]) none

end Legacy

namespace NodePath

/-! ## POSIX path model (node:path)

Paths are modelled as character lists.  `normAbs` is `path.normalize`
restricted to absolute paths, `pathResolve` is single-argument
`path.resolve` relative to an explicit working directory, `pathDirname`,
`pathBasename` and `pathJoin` are the corresponding `node:path` POSIX
operations on slash-separated paths. -/

/-- A filesystem path, as the list of its characters. -/
abbrev Path := List Char

/-- Split a path at every `'/'`; produces the (possibly empty) runs of
non-slash characters between slashes. -/
def splitSlash : Path → List Path
  | [] => [[]]
  | c :: rest =>
    match splitSlash rest with
    | [] => []
    | s :: r => if c = '/' then [] :: s :: r else (c :: s) :: r

/-- The non-empty segments of a path (collapsing repeated slashes). -/
def segsOf (p : Path) : List Path :=
  (splitSlash p).filter fun s => !s.isEmpty

/-- Normalisation of an absolute path's segment list: `.` is dropped,
`..` pops the previous segment (and is dropped at the root). -/
def normSegs (segs : List Path) : List Path :=
  segs.foldl
    (fun acc seg =>
      if seg = ['.'] then acc
      else if seg = ['.', '.'] then acc.dropLast
      else acc ++ [seg])
    []

/-- Normalisation of a relative path's segment list: as `normSegs`,
except that `..` is kept when there is nothing left to pop. -/
def normSegsRel (segs : List Path) : List Path :=
  segs.foldl
    (fun acc seg =>
      if seg = ['.'] then acc
      else if seg = ['.', '.'] then
        if acc.isEmpty || acc.getLast? = some ['.', '.'] then acc ++ [seg]
        else acc.dropLast
      else acc ++ [seg])
    []

/-- Join segments with `'/'`. -/
def joinSegs : List Path → Path
  | [] => []
  | [s] => s
  | s :: rest => s ++ '/' :: joinSegs rest

/-- Render an absolute path from its segments. -/
def renderAbs (segs : List Path) : Path :=
  '/' :: joinSegs segs

/-- `path.normalize` on an absolute path. -/
def normAbs (p : Path) : Path :=
  renderAbs (normSegs (segsOf p))

/-- Single-argument `path.resolve(p)` against the working directory
`cwd` (an absolute path): an absolute `p` is normalised, a relative `p`
is appended to `cwd` first. -/
def pathResolve (cwd p : Path) : Path :=
  if p.head? = some '/' then normAbs p else normAbs (cwd ++ '/' :: p)

/-- JS `String.prototype.indexOf` returning the first index at which
`needle` occurs in the string, `none` for `-1`. -/
def jsIndexOf : Path → Path → Option Nat
  | haystack, needle =>
    if needle.isPrefixOf haystack then some 0
    else
      match haystack with
      | [] => none
      | _ :: rest => (jsIndexOf rest needle).map (· + 1)

/-- Index of the last `'/'` in a path, if any. -/
def lastSlash : Path → Option Nat
  | [] => none
  | c :: rest =>
    match lastSlash rest with
    | some k => some (k + 1)
    | none => if c = '/' then some 0 else none

/-- Remove trailing slashes (`path.dirname`/`path.basename` ignore them). -/
def stripTrailingSlashes (p : Path) : Path :=
  (p.reverse.dropWhile fun c => c = '/').reverse

/-- `path.dirname` (POSIX). -/
def pathDirname (p : Path) : Path :=
  let q := stripTrailingSlashes p
  if q.isEmpty then (if p.head? = some '/' then ['/'] else ['.'])
  else
    match lastSlash q with
    | none => ['.']
    | some 0 => ['/']
    | some k => q.take k

/-- `path.basename` (POSIX). -/
def pathBasename (p : Path) : Path :=
  let q := stripTrailingSlashes p
  match lastSlash q with
  | none => q
  | some k => q.drop (k + 1)

/-- `path.join(a, b)` (POSIX): concatenate with `'/'` and normalise,
preserving relativeness (leading `..` segments are kept for relative
paths, the result is `"."` when everything cancels). -/
def pathJoin (a b : Path) : Path :=
  let combined := if a.isEmpty then b else if b.isEmpty then a else a ++ '/' :: b
  if combined.isEmpty then ['.']
  else if combined.head? = some '/' then normAbs combined
  else
    let segs := normSegsRel (segsOf combined)
    if segs.isEmpty then ['.'] else joinSegs segs

/-- A path is canonical when splitting it into dirname/basename and
joining them back is the identity — true of the absolute normalised
paths produced by `path.resolve`. -/
def canonicalPath (p : Path) : Prop :=
  pathJoin (pathDirname p) (pathBasename p) = p

instance (p : Path) : Decidable (canonicalPath p) := by
  unfold canonicalPath
  infer_instance

end NodePath

namespace Esbuild

open NodePath

/-- A structured esbuild diagnostic (`Message`): only the `text` payload
is modelled; the driver and plugins treat diagnostics opaquely. -/
structure Message where
  text : String
deriving Repr, DecidableEq

/-- `resolveFilename` from src/esbuild.ts: if the input embeds the
working directory as a substring, resolve the suffix starting at the
first occurrence, otherwise resolve the input itself.
`const cwdIndex = input.indexOf(process.cwd());`
`return path.resolve(cwdIndex >= 0 ? input.slice(cwdIndex) : input);` -/
def resolveFilename (cwd input : Path) : Path :=
  match jsIndexOf input cwd with
  | some k => pathResolve cwd (input.drop k)
  | none => pathResolve cwd input

end Esbuild

namespace Watch

open NodePath

/-! ## Watch driver (`watchInstrument`, src/esbuild.ts)

The change handler installed by `watchInstrument` re-runs the incremental
rebuild; on success it diffs the new input set (the metafile input paths,
passed through `resolveFilename`) against the chokidar watcher's current
set, adding and unwatching files; on failure it only logs the structured
errors and leaves the watcher untouched. -/

/-- chokidar's `watcher.getWatched()`: the watched paths grouped by
directory; each entry maps a directory to the base names watched in it. -/
def getWatched (watched : List Path) : List (Path × List Path) :=
  (watched.map pathDirname).dedup.map fun d =>
    (d, (watched.filter fun p => decide (pathDirname p = d)).map pathBasename)

/-- The handler's membership probe
`watchedFiles[path.dirname(file)]?.includes(path.basename(file))`. -/
def snapshotHas (snapshot : List (Path × List Path)) (file : Path) : Bool :=
  match snapshot.find? fun e => decide (e.fst = pathDirname file) with
  | some e => decide (pathBasename file ∈ e.snd)
  | none => false

/-- The files passed to `watcher.add`: bundled files missing from the
`getWatched` snapshot taken before the diff. -/
def addedFiles (watched bundled : List Path) : List Path :=
  bundled.filter fun f => !snapshotHas (getWatched watched) f

/-- The files passed to `watcher.unwatch`: every `path.join(dir, file)` of
the snapshot that is not among the bundled files. -/
def unwatchedFiles (watched bundled : List Path) : List Path :=
  (((getWatched watched).map fun e => e.snd.map fun b => pathJoin e.fst b).flatten).filter
    fun p => !decide (p ∈ bundled)

/-- The watcher's file set after the success branch of the change
handler: the snapshot is taken once, the additions happen first, then the
stale paths are unwatched. -/
def watchDiffStep (watched bundled : List Path) : List Path :=
  (watched ++ addedFiles watched bundled).filter
    fun p => !decide (p ∈ unwatchedFiles watched bundled)

/-- Outcome of one `context.rebuild()` call: the fulfilled metafile input
list, or the structured errors of the rejection. -/
inductive RebuildOutcome where
  | success (inputs : List Path)
  | failure (errors : List Esbuild.Message)

/-- The watcher state carried between change notifications. -/
structure WatchState where
  watched : List Path

/-- Result of one change notification: the successor state, whether a
rebuild was attempted, and the errors handed to `logger.buildFailed`. -/
structure ChangeStep where
  state : WatchState
  rebuildAttempted : Bool
  reportedErrors : List Esbuild.Message

/-- The `watcher.on("change", …)` handler: always rebuilds; on success
the watched set is diffed against the new manifest; on failure
(`.catch`) the errors are logged and nothing else happens — in
particular no `unwatch`, no handler removal, no watcher close. -/
def onChange (cwd : Path) (st : WatchState) (outcome : RebuildOutcome) : ChangeStep :=
  match outcome with
  | .failure errors => ⟨st, true, errors⟩
  | .success inputs =>
    ⟨⟨watchDiffStep st.watched (inputs.map (Esbuild.resolveFilename cwd))⟩, true, []⟩

/-- Folding the change handler over a stream of change notifications,
counting the rebuild attempts. -/
def processEvents (cwd : Path) (st : WatchState) : List RebuildOutcome → WatchState × Nat
  | [] => (st, 0)
  | e :: es =>
    let next := processEvents cwd (onChange cwd st e).state es
    (next.fst, next.snd + 1)

/-- Initial watched set `{/w/a.ts, /w/b.ts}` of the spec's watch-diff
example. -/
def exampleOldWatched : List Path :=
  ["/w/a.ts".data, "/w/b.ts".data]

/-- Rebuilt manifest inputs `{/w/a.ts, /w/c.ts}` of the spec's watch-diff
example. -/
def exampleNewBundled : List Path :=
  ["/w/a.ts".data, "/w/c.ts".data]

end Watch

namespace Plugins

open NodePath

/-! ## Build-end plugins (src/plugins.ts)

`writeMetafile` and `writePackageSources` register `onEnd` callbacks; the
filesystem writes they perform are modelled as the list of target paths
written, in order.  File contents (serialized metafile, bundle text,
rendered templates) are opaque to the claims about *whether* writes
happen. -/

/-- The slice of the esbuild `onEnd` result the plugins inspect. -/
structure OnEndResult where
  errors : List Esbuild.Message

/-- `writeMetafile`'s `onEnd`: writes `build_meta.json` next to the
outfile when `result.errors.length === 0`, otherwise does nothing. -/
def writeMetafileWrites (outfile : Path) (result : OnEndResult) : List Path :=
  if result.errors.length = 0 then
    [pathJoin (pathDirname outfile) "build_meta.json".data]
  else []

/-- `writePackageSources`' `onEnd`: when the instrument declares a
simulator package and `result.errors.length === 0`, writes the packaged
css, js, the react harness (react instruments only) and the html template
into the package target directory; otherwise does nothing.  The
`outfile` parameter locates the bundle files the callback *reads*
(`bundle.js`, `bundle.css`); reading is not a write, so it does not
contribute to the returned write list. -/
def writePackageSourcesWrites (cwd : Path) (args : Mach.MachArgs)
    (instrument : Mach.Instrument) (_outfile : Path) (result : OnEndResult) :
    List Path :=
  match instrument.simulatorPackage with
  | none => []
  | some sp =>
    if result.errors.length = 0 then
      let htmlUiPath := pathJoin (pathJoin cwd args.config.packageDir.data) "html_ui".data
      let packageTarget :=
        pathJoin (pathJoin (pathJoin htmlUiPath "Pages/VCockpit/Instruments".data)
          args.config.packageName.data) instrument.name.data
      let fileName := sp.fileName.getD "instrument"
      let cssPath := pathJoin packageTarget (fileName ++ ".css").data
      let jsPath := pathJoin packageTarget (fileName ++ ".js").data
      let instrumentPath :=
        if sp.isReact then pathJoin packageTarget (fileName ++ ".index.js").data
        else jsPath
      [cssPath, jsPath] ++
        (if sp.isReact then [instrumentPath] else []) ++
        [pathJoin packageTarget (fileName ++ ".html").data]
    else []

/-! ## Environment-substitution plugin (`environment`, src/plugins.ts)

The plugin's `onLoad` callback reads a source file, returns it verbatim
when the path contains `node_modules`, and otherwise replaces every match
of `/process\.env\.(?<variable>[A-Za-z0-9_]+)/gm` with the stringified
environment value.  `matchAll` iterates lazily over the *original*
immutable string, so match indices refer to the original contents, while
the running `contents` string is rebuilt using `indexOffset`.  When a
referenced value is undefined, a warning is pushed whose line/column are
computed by the `while (column >= lines[line].length)` walk over a lazily
captured `lines` snapshot; stepping past the last line makes
`lines[line]` `undefined` and the walk throw a `TypeError`, which is
modelled as `.crash`. -/

/-- The literal part of the env-reference pattern, `process.env.`. -/
def envMarker : Path :=
  "process.env.".data

/-- The variable-name character class `[A-Za-z0-9_]`. -/
def isIdentChar (c : Char) : Bool :=
  c.isAlphanum || c = '_'

/-- Scan for the non-overlapping matches of the env-reference pattern,
returning `(index, variable)` pairs in order.  The fuel starts at the
string length; every step consumes at least one character, so the fuel
never runs out before the string does. -/
def scanEnvAux : Nat → Path → Nat → List (Nat × Path)
  | 0, _, _ => []
  | fuel + 1, s, i =>
    match s with
    | [] => []
    | _ :: rest =>
      if envMarker.isPrefixOf s then
        let varChars := (s.drop envMarker.length).takeWhile isIdentChar
        if varChars.isEmpty then scanEnvAux fuel rest (i + 1)
        else
          (i, varChars) ::
            scanEnvAux fuel (s.drop (envMarker.length + varChars.length))
              (i + envMarker.length + varChars.length)
      else scanEnvAux fuel rest (i + 1)

/-- All matches of `ENV_REGEX` in `s` (`contents.matchAll(ENV_REGEX)`). -/
def scanEnv (s : Path) : List (Nat × Path) :=
  scanEnvAux s.length s 0

/-- JS `s.slice(0, stop)` with JS clamping semantics (a negative stop
counts from the end). -/
def jsSliceTo (s : Path) (stop : Int) : Path :=
  let len : Int := s.length
  let e := if stop < 0 then max (len + stop) 0 else min stop len
  s.take e.toNat

/-- JS `s.slice(start)` with JS clamping semantics. -/
def jsSliceFrom (s : Path) (start : Int) : Path :=
  let len : Int := s.length
  let b := if start < 0 then max (len + start) 0 else min start len
  s.drop b.toNat

/-- JS whitespace stripped by `ToNumber` (the ASCII ones plus NBSP). -/
def isJsWhitespace (c : Char) : Bool :=
  c = ' ' || c = '\t' || c = '\n' || c = '\r' ||
    c = '\x0b' || c = '\x0c' || c = '\xa0'

/-- Trim leading and trailing JS whitespace. -/
def jsTrim (s : Path) : Path :=
  ((s.dropWhile isJsWhitespace).reverse.dropWhile isJsWhitespace).reverse

def isHexDig (c : Char) : Bool :=
  c.isDigit || ('a' ≤ c && c ≤ 'f') || ('A' ≤ c && c ≤ 'F')

def isOctDig (c : Char) : Bool :=
  '0' ≤ c && c ≤ '7'

def isBinDig (c : Char) : Bool :=
  c = '0' || c = '1'

/-- Split a string at the first character satisfying `pred`; the second
component is the remainder after that character when found. -/
def splitFirst (pred : Char → Bool) : Path → Path × Option Path
  | [] => ([], none)
  | c :: rest =>
    if pred c then ([], some rest)
    else
      let (a, b) := splitFirst pred rest
      (c :: a, b)

/-- Mantissa of a JS decimal literal: `Digits`, `Digits . Digits?`, or
`. Digits`. -/
def isMantissa (m : Path) : Bool :=
  let intPart := m.takeWhile Char.isDigit
  match m.drop intPart.length with
  | [] => !intPart.isEmpty
  | '.' :: frac => (!intPart.isEmpty || !frac.isEmpty) && frac.all Char.isDigit
  | _ => false

/-- Exponent part of a JS decimal literal (after the `e`/`E`). -/
def isExponentPart (e : Path) : Bool :=
  let e' :=
    match e with
    | '+' :: r => r
    | '-' :: r => r
    | r => r
  !e'.isEmpty && e'.all Char.isDigit

/-- A signed JS decimal literal with optional exponent. -/
def isDecimalLiteral (t : Path) : Bool :=
  let u :=
    match t with
    | '+' :: r => r
    | '-' :: r => r
    | r => r
  let (mant, ex) := splitFirst (fun c => c = 'e' || c = 'E') u
  isMantissa mant &&
    (match ex with
     | none => true
     | some e => isExponentPart e)

/-- JS `isNaN(value)` for a string value, i.e. whether `ToNumber(value)`
is NaN: whitespace-trimmed empty coerces to 0, `Infinity` (optionally
signed), `0x`/`0o`/`0b` literals and decimal literals coerce to numbers,
everything else is NaN. -/
def jsIsNaNStr (s : Path) : Bool :=
  let t := jsTrim s
  if t.isEmpty then false
  else if t = "Infinity".data || t = "+Infinity".data || t = "-Infinity".data then false
  else
    match t with
    | '0' :: x :: rest =>
      if x = 'x' || x = 'X' then !(!rest.isEmpty && rest.all isHexDig)
      else if x = 'o' || x = 'O' then !(!rest.isEmpty && rest.all isOctDig)
      else if x = 'b' || x = 'B' then !(!rest.isEmpty && rest.all isBinDig)
      else !isDecimalLiteral t
    | _ => !isDecimalLiteral t

/-- Lower-case hex digit for a value below 16. -/
def hexDigitChar (n : Nat) : Char :=
  if n < 10 then Char.ofNat ('0'.toNat + n)
  else Char.ofNat ('a'.toNat + (n - 10))

/-- `JSON.stringify` escaping of one character. -/
def jsonEscapeChar (c : Char) : Path :=
  if c = '"' then ['\\', '"']
  else if c = '\\' then ['\\', '\\']
  else if c = '\n' then ['\\', 'n']
  else if c = '\r' then ['\\', 'r']
  else if c = '\t' then ['\\', 't']
  else if c = '\x08' then ['\\', 'b']
  else if c = '\x0c' then ['\\', 'f']
  else if c.toNat < 32 then
    '\\' :: 'u' :: '0' :: '0' :: hexDigitChar (c.toNat / 16) :: [hexDigitChar (c.toNat % 16)]
  else [c]

/-- `JSON.stringify` of a string value. -/
def jsonStringify (s : Path) : Path :=
  '"' :: (s.map jsonEscapeChar).flatten ++ ['"']

/-- The replacement text for one match: the raw value when it is
`"true"`, `"false"`, or a non-empty string that coerces to a number
(`!isNaN(value)`); otherwise `JSON.stringify(value)` — in particular
`JSON.stringify(null)` = `null` for an undefined variable. -/
def stringifiedValue (value : Option Path) : Path :=
  match value with
  | none => "null".data
  | some v =>
    if v = "true".data || v = "false".data || (!v.isEmpty && !jsIsNaNStr v) then v
    else jsonStringify v

/-- Split contents on `'\n'` (`contents.split("\n")`). -/
def splitNewline : Path → List Path
  | [] => [[]]
  | c :: rest =>
    match splitNewline rest with
    | [] => []
    | s :: r => if c = '\n' then [] :: s :: r else (c :: s) :: r

/-- The `while (column >= lines[line].length)` walk: consume whole lines
(plus the newline) until the residual column fits; `none` models indexing
past the last line, where the JS code dereferences `undefined` and
throws. -/
def locLoop : List Path → Int → Nat → Option (Nat × Int × Path)
  | [], _, _ => none
  | l :: rest, column, line =>
    if (l.length : Int) ≤ column then locLoop rest (column - (l.length + 1)) (line + 1)
    else some (line, column, l)

/-- The warning's `location` payload (esbuild `Location`); `namespace`
is spelled `nmspace` because the word is reserved in Lean. -/
structure Location where
  file : String
  nmspace : String
  line : Nat
  column : Int
  length : Nat
  lineText : Path
  suggestion : String
deriving Repr, DecidableEq

/-- A `Partial<Message>` warning pushed by the plugin. -/
structure EnvWarning where
  text : Path
  location : Location
deriving Repr, DecidableEq

/-- Result of the `onLoad` callback: the transformed contents plus the
collected warnings, or a thrown exception (`.crash`), which esbuild
reports as a build *error*. -/
inductive LoadResult where
  | ok (contents : Path) (warnings : List EnvWarning)
  | crash
deriving Repr, DecidableEq

/-- The match-processing loop of the loader.  State: remaining matches
(with their indices in the original contents), the current contents,
`indexOffset`, the lazily captured `lines` snapshot, and the warnings
collected so far. -/
def substLoop (env : String → Option String) (file nmspace : String) :
    List (Nat × Path) → Path → Int → Option (List Path) → List EnvWarning → LoadResult
  | [], contents, _, _, warnings => .ok contents warnings
  | (idx, varName) :: rest, contents, offset, linesCache, warnings =>
    let matchText := envMarker ++ varName
    let value := (env (String.mk varName)).map String.data
    let index : Int := (idx : Int) + offset
    let stringified := stringifiedValue value
    let newContents :=
      jsSliceTo contents index ++ stringified ++
        jsSliceFrom contents (index + matchText.length)
    let newOffset := offset + stringified.length - matchText.length
    match value with
    | some _ => substLoop env file nmspace rest newContents newOffset linesCache warnings
    | none =>
      let lines := linesCache.getD (splitNewline contents)
      match locLoop lines (idx : Int) 0 with
      | none => .crash
      | some (line, column, lineText) =>
        let w : EnvWarning :=
          ⟨matchText ++ " is not defined".data,
            ⟨file, nmspace, line + 1, column, matchText.length, lineText, ""⟩⟩
        substLoop env file nmspace rest newContents newOffset (some lines)
          (warnings ++ [w])

/-- The `environment` plugin's `onLoad` callback on a file with the given
path, namespace and contents: files whose path contains `node_modules`
are returned verbatim with no warnings; otherwise every env reference is
substituted and each undefined reference contributes one warning. -/
def environmentLoader (env : String → Option String) (file nmspace : String)
    (contents : Path) : LoadResult :=
  if (NodePath.jsIndexOf file.data "node_modules".data).isSome then .ok contents []
  else substLoop env file nmspace (scanEnv contents) contents 0 none []

/-- Environment for the C4 failing input: `LONGNAME1` is defined as the
numeric string `1`, `X` is undefined. -/
def crashEnv : String → Option String := fun v =>
  if v = "LONGNAME1" then some "1" else none

/-- Contents for the C4 failing input.  Substituting the defined
21-character reference `process.env.LONGNAME1` with `1` shrinks the
snapshot by 20 characters, so the original index 30 of the undefined
`process.env.X` walks past the end of the snapshot's line array. -/
def crashContents : Path :=
  "process.env.LONGNAME1 aaaa\nbb process.env.X".data

/-- A failed build result with one structured error. -/
def failedResult : OnEndResult :=
  ⟨[⟨"Transform failed"⟩]⟩

/-- An instrument declaring a react simulator package. -/
def packagedInstrument : Mach.Instrument :=
  .mk "PFD" "src/PFD/index.tsx" (some (.react none none none none none)) none none

end Plugins

namespace Schema

/-! ## Configuration validation (`InstrumentSchema`, src/types.ts)

`InstrumentSchema` is a `z.lazy` self-referencing zod object schema.  A
JavaScript value fed to `safeParse` may be an arbitrary object *graph*,
including cyclic ones, so values are modelled as addresses into a store.
The parser carries explicit fuel bounding the recursion depth;
`.outOfFuel` means the real (unfueled) recursion would have descended
deeper — if parsing is out of fuel for *every* fuel, the real schema
recurses without bound on that value and never produces a verdict. -/

/-- An untyped JavaScript value; arrays and object fields hold addresses
into the store, so cyclic object graphs are representable. -/
inductive JVal where
  | vstr (s : String)
  | vbool (b : Bool)
  | vnum (n : Int)
  | varr (elems : List Nat)
  | vobj (fields : List (String × Nat))
  | vnull
deriving Repr, DecidableEq

/-- A heap of JavaScript values; an address is an index. -/
abbrev Store := List JVal

/-- Outcome of validating one value: a typed result, a validation
failure, or exhausted recursion fuel. -/
inductive PResult (α : Type) where
  | ok (a : α)
  | invalid
  | outOfFuel

/-- Sequencing of validation steps; `invalid` and `outOfFuel` are both
short-circuiting (zod aggregates issues, but the overall verdict is the
same as this short-circuit). -/
def PResult.andThen {α β : Type} : PResult α → (α → PResult β) → PResult β
  | .ok a, f => f a
  | .invalid, _ => .invalid
  | .outOfFuel, _ => .outOfFuel

/-- Property access on an object literal (first binding wins, as JS
object keys are unique). -/
def getField (fields : List (String × Nat)) (key : String) : Option Nat :=
  (fields.find? fun f => f.fst == key).map Prod.snd

/-- `z.string()` at an address. -/
def parseString (σ : Store) (addr : Nat) : PResult String :=
  match σ.get? addr with
  | some (.vstr s) => .ok s
  | _ => .invalid

/-- `z.boolean()` at an address. -/
def parseBool (σ : Store) (addr : Nat) : PResult Bool :=
  match σ.get? addr with
  | some (.vbool b) => .ok b
  | _ => .invalid

/-- `.optional()` on an object field: an absent field parses to `none`. -/
def parseOptField {α : Type} (fields : List (String × Nat)) (key : String)
    (p : Nat → PResult α) : PResult (Option α) :=
  match getField fields key with
  | none => .ok none
  | some a => (p a).andThen fun x => .ok (some x)

/-- A required field of an object. -/
def parseReqField {α : Type} (fields : List (String × Nat)) (key : String)
    (p : Nat → PResult α) : PResult α :=
  match getField fields key with
  | none => .invalid
  | some a => p a

/-- `z.array(z.string())`. -/
def parseStringArray (σ : Store) (addr : Nat) : PResult (List String) :=
  match σ.get? addr with
  | some (.varr elems) =>
    elems.foldr
      (fun a acc =>
        (parseString σ a).andThen fun s => acc.andThen fun ss => .ok (s :: ss))
      (.ok [])
  | _ => .invalid

/-- `z.literal(lit)` for a string literal. -/
def parseStringLiteral (σ : Store) (lit : String) (addr : Nat) : PResult Unit :=
  match σ.get? addr with
  | some (.vstr s) => if s = lit then .ok () else .invalid
  | _ => .invalid

/-- The `type: "react"` branch of the `simulatorPackage` union. -/
def parseReactPackage (σ : Store) (addr : Nat) : PResult Mach.SimulatorPackage :=
  match σ.get? addr with
  | some (.vobj fields) =>
    (parseReqField fields "type" (parseStringLiteral σ "react")).andThen fun _ =>
    (parseOptField fields "fileName" (parseString σ)).andThen fun fileName =>
    (parseOptField fields "templateName" (parseString σ)).andThen fun templateName =>
    (parseOptField fields "imports" (parseStringArray σ)).andThen fun imports =>
    (parseOptField fields "templateId" (parseString σ)).andThen fun templateId =>
    (parseOptField fields "isInteractive" (parseBool σ)).andThen fun isInteractive =>
    .ok (.react fileName templateName imports templateId isInteractive)
  | _ => .invalid

/-- The `type: "baseInstrument"` branch of the `simulatorPackage` union. -/
def parseBaseInstrumentPackage (σ : Store) (addr : Nat) :
    PResult Mach.SimulatorPackage :=
  match σ.get? addr with
  | some (.vobj fields) =>
    (parseReqField fields "type" (parseStringLiteral σ "baseInstrument")).andThen fun _ =>
    (parseOptField fields "fileName" (parseString σ)).andThen fun fileName =>
    (parseOptField fields "templateName" (parseString σ)).andThen fun templateName =>
    (parseOptField fields "imports" (parseStringArray σ)).andThen fun imports =>
    (parseReqField fields "templateId" (parseString σ)).andThen fun templateId =>
    (parseReqField fields "mountElementId" (parseString σ)).andThen fun mountElementId =>
    .ok (.baseInstrument fileName templateName imports templateId mountElementId)
  | _ => .invalid

/-- `z.union([react, baseInstrument])`: the first branch that validates
wins; invalid only when both fail. -/
def parseSimulatorPackage (σ : Store) (addr : Nat) : PResult Mach.SimulatorPackage :=
  match parseReactPackage σ addr with
  | .ok sp => .ok sp
  | .outOfFuel => .outOfFuel
  | .invalid => parseBaseInstrumentPackage σ addr

mutual

/-- `InstrumentSchema.safeParse` at an address, with explicit recursion
fuel: objects must carry `name` and `index` strings, an optional
`simulatorPackage` union, an optional `modules` array validated
recursively against `InstrumentSchema` itself (one fuel unit per nesting
level), and an optional `resolve` string. -/
def parseInstrument (σ : Store) : Nat → Nat → PResult Mach.Instrument
  | 0, _ => .outOfFuel
  | fuel + 1, addr =>
    match σ.get? addr with
    | some (.vobj fields) =>
      (parseReqField fields "name" (parseString σ)).andThen fun name =>
      (parseReqField fields "index" (parseString σ)).andThen fun index =>
      (parseOptField fields "simulatorPackage" (parseSimulatorPackage σ)).andThen fun sp =>
      (parseOptField fields "modules" (fun a =>
        match σ.get? a with
        | some (.varr elems) => parseInstrumentList σ fuel elems
        | _ => .invalid)).andThen fun mods =>
      (parseOptField fields "resolve" (parseString σ)).andThen fun res =>
      .ok (.mk name index sp mods res)
    | _ => .invalid

/-- `z.array(InstrumentSchema)` over the element addresses. -/
def parseInstrumentList (σ : Store) : Nat → List Nat → PResult (List Mach.Instrument)
  | _, [] => .ok []
  | fuel, a :: as =>
    (parseInstrument σ fuel a).andThen fun i =>
    (parseInstrumentList σ fuel as).andThen fun is =>
    .ok (i :: is)

end

/-- A store holding a cyclic Instrument tree: the root object's
`modules` array contains the root itself. -/
def cyclicStore : Store :=
  [ .vobj [("name", 1), ("index", 2), ("modules", 3)],
    .vstr "A",
    .vstr "src/A/index.tsx",
    .varr [0] ]

end Schema

namespace NodePath

theorem splitSlash_ne_nil : ∀ p : Path, splitSlash p ≠ []
  | [] => by simp [splitSlash]
  | c :: rest => by
    have ih := splitSlash_ne_nil rest
    rcases h : splitSlash rest with _ | ⟨s, r⟩
    · exact absurd h ih
    · simp only [splitSlash, h]
      split <;> simp

theorem splitSlash_no_slash : ∀ (p : Path), ∀ s ∈ splitSlash p, '/' ∉ s
  | [] => by simp [splitSlash]
  | c :: rest => by
    have ih := splitSlash_no_slash rest
    rcases h : splitSlash rest with _ | ⟨s, r⟩
    · exact absurd h (splitSlash_ne_nil rest)
    · rw [h] at ih
      intro t ht hsl
      simp only [splitSlash, h] at ht
      by_cases hc : c = '/'
      · rw [if_pos hc] at ht
        rcases List.mem_cons.mp ht with rfl | ht2
        · simp at hsl
        · exact ih t ht2 hsl
      · rw [if_neg hc] at ht
        rcases List.mem_cons.mp ht with rfl | ht2
        · rcases List.mem_cons.mp hsl with h1 | h2
          · exact hc h1.symm
          · exact ih s (by simp) h2
        · exact ih t (by simp [ht2]) hsl

theorem segsOf_clean (p : Path) : ∀ s ∈ segsOf p, s ≠ [] ∧ '/' ∉ s := by
  intro s hs
  rcases List.mem_filter.mp hs with ⟨hmem, hne⟩
  refine ⟨by simpa using hne, splitSlash_no_slash p s hmem⟩

theorem splitSlash_append (t : Path) :
    ∀ s : Path, '/' ∉ s → splitSlash (s ++ '/' :: t) = s :: splitSlash t
  | [], _ => by
    rcases h : splitSlash t with _ | ⟨u, r⟩
    · exact absurd h (splitSlash_ne_nil t)
    · simp [splitSlash, h]
  | c :: s, hns => by
    have hc : c ≠ '/' := fun hc => hns (by simp [hc])
    have ih := splitSlash_append t s (fun hmem => hns (by simp [hmem]))
    simp only [List.cons_append, List.append_eq, splitSlash, ih, if_neg hc]

theorem splitSlash_pure : ∀ s : Path, '/' ∉ s → splitSlash s = [s]
  | [], _ => by simp [splitSlash]
  | c :: s, hns => by
    have hc : c ≠ '/' := fun hc => hns (by simp [hc])
    have ih := splitSlash_pure s (fun hmem => hns (by simp [hmem]))
    simp [splitSlash, ih, if_neg hc]

theorem segsOf_joinSegs :
    ∀ l : List Path, (∀ s ∈ l, s ≠ [] ∧ '/' ∉ s) → segsOf (joinSegs l) = l
  | [], _ => by simp [joinSegs, segsOf, splitSlash]
  | [s], h => by
    have hs := h s (by simp)
    simp [joinSegs, segsOf, splitSlash_pure s hs.2, hs.1]
  | s :: s' :: rest, h => by
    have hs := h s (by simp)
    have ih := segsOf_joinSegs (s' :: rest) (fun u hu => h u (by simp [hu]))
    have hjoin : joinSegs (s :: s' :: rest) = s ++ '/' :: joinSegs (s' :: rest) := rfl
    rw [hjoin]
    simp only [segsOf, splitSlash_append _ s hs.2, List.filter_cons]
    have : (!s.isEmpty) = true := by simpa using hs.1
    rw [if_pos this]
    exact congrArg _ ih

theorem segsOf_renderAbs (l : List Path) (h : ∀ s ∈ l, s ≠ [] ∧ '/' ∉ s) :
    segsOf (renderAbs l) = l := by
  have : renderAbs l = [] ++ '/' :: joinSegs l := rfl
  rw [this, segsOf, splitSlash_append _ [] (by simp)]
  simp only [List.filter_cons]
  have : (!([] : Path).isEmpty) = false := by simp
  rw [if_neg (by simp)]
  exact segsOf_joinSegs l h

/-- Segments produced by `normSegs` are non-empty, slash-free, and are
neither `.` nor `..`, provided the input segments are non-empty and
slash-free. -/
theorem normSegs_clean :
    ∀ (segs acc : List Path),
      (∀ s ∈ acc, s ≠ [] ∧ '/' ∉ s ∧ s ≠ ['.'] ∧ s ≠ ['.', '.']) →
      (∀ s ∈ segs, s ≠ [] ∧ '/' ∉ s) →
      ∀ s ∈ segs.foldl
          (fun acc seg =>
            if seg = ['.'] then acc
            else if seg = ['.', '.'] then acc.dropLast
            else acc ++ [seg])
          acc,
        s ≠ [] ∧ '/' ∉ s ∧ s ≠ ['.'] ∧ s ≠ ['.', '.']
  | [], acc, hacc, _ => by simpa using hacc
  | seg :: segs, acc, hacc, hsegs => by
    have hseg := hsegs seg (by simp)
    rw [List.foldl_cons]
    by_cases h1 : seg = ['.']
    · rw [if_pos h1]
      exact normSegs_clean segs acc hacc (fun u hu => hsegs u (by simp [hu]))
    · rw [if_neg h1]
      by_cases h2 : seg = ['.', '.']
      · rw [if_pos h2]
        refine normSegs_clean segs acc.dropLast ?_ (fun u hu => hsegs u (by simp [hu]))
        intro u hu
        exact hacc u ((List.dropLast_sublist acc).subset hu)
      · rw [if_neg h2]
        refine normSegs_clean segs (acc ++ [seg]) ?_ (fun u hu => hsegs u (by simp [hu]))
        intro u hu
        rcases List.mem_append.mp hu with hu | hu
        · exact hacc u hu
        · rw [List.mem_singleton.mp hu]
          exact ⟨hseg.1, hseg.2, h1, h2⟩

theorem normSegs_of_clean :
    ∀ (l acc : List Path), (∀ s ∈ l, s ≠ ['.'] ∧ s ≠ ['.', '.']) →
      l.foldl
        (fun acc seg =>
          if seg = ['.'] then acc
          else if seg = ['.', '.'] then acc.dropLast
          else acc ++ [seg])
        acc = acc ++ l
  | [], acc, _ => by simp
  | seg :: l, acc, h => by
    have hseg := h seg (by simp)
    rw [List.foldl_cons, if_neg hseg.1, if_neg hseg.2,
      normSegs_of_clean l (acc ++ [seg]) (fun u hu => h u (by simp [hu]))]
    simp

theorem normAbs_clean (p : Path) :
    ∀ s ∈ normSegs (segsOf p), s ≠ [] ∧ '/' ∉ s ∧ s ≠ ['.'] ∧ s ≠ ['.', '.'] :=
  normSegs_clean (segsOf p) [] (by simp) (segsOf_clean p)

theorem normAbs_idem (p : Path) : normAbs (normAbs p) = normAbs p := by
  have hclean := normAbs_clean p
  rw [normAbs, normAbs, segsOf_renderAbs _ (fun s hs => ⟨(hclean s hs).1, (hclean s hs).2.1⟩)]
  rw [show normSegs (normSegs (segsOf p)) =
      (normSegs (segsOf p)).foldl
        (fun acc seg =>
          if seg = ['.'] then acc
          else if seg = ['.', '.'] then acc.dropLast
          else acc ++ [seg]) [] from rfl,
    normSegs_of_clean _ [] (fun s hs => ⟨(hclean s hs).2.2.1, (hclean s hs).2.2.2⟩)]
  rfl

theorem normAbs_head (p : Path) : (normAbs p).head? = some '/' := rfl

theorem pathResolve_of_normAbs (cwd q : Path) :
    pathResolve cwd (normAbs q) = normAbs q := by
  rw [pathResolve, if_pos (normAbs_head q)]
  exact normAbs_idem q

theorem pathResolve_is_normAbs (cwd p : Path) :
    ∃ q, pathResolve cwd p = normAbs q := by
  rw [pathResolve]
  split
  · exact ⟨p, rfl⟩
  · exact ⟨cwd ++ '/' :: p, rfl⟩

end NodePath

namespace Esbuild

open NodePath

theorem resolveFilename_is_normAbs (cwd input : Path) :
    ∃ q, resolveFilename cwd input = normAbs q := by
  rw [resolveFilename]
  rcases h : jsIndexOf input cwd with _ | k
  · exact pathResolve_is_normAbs cwd input
  · exact pathResolve_is_normAbs cwd (input.drop k)

end Esbuild

namespace Legacy

theorem buildList_eq_map (bundler : Instrument → BuildRes) :
    ∀ ms : List Instrument, buildList bundler ms = ms.map (buildInstrument bundler)
  | [] => rfl
  | i :: is => by rw [buildList, List.map_cons, buildList_eq_map bundler is]

theorem sizeOf_lt_of_mem_modules {m : Instrument} {ms : List Instrument}
    {n d : String} {inp : Option String} {imp : Option (List String)}
    {sps : Option Bool} {imprt : Option String} (h : m ∈ ms) :
    sizeOf m < sizeOf (Instrument.mk n d inp imp sps (some ms) imprt) := by
  have hlt : sizeOf m < sizeOf ms := List.sizeOf_lt_of_mem h
  simp only [Instrument.mk.sizeOf_spec, Option.some.sizeOf_spec]
  omega

/-- Every instrument the bundler is invoked on while building `i` is a
node of `i`'s own subtree: its size is bounded by `sizeOf i`. -/
theorem buildTrace_sizeOf (bundler : Instrument → BuildRes) :
    ∀ (fuel : Nat) (i : Instrument), sizeOf i ≤ fuel →
      ∀ j ∈ (buildInstrument bundler i).snd, sizeOf j ≤ sizeOf i := by
  intro fuel
  induction fuel with
  | zero =>
    intro i hi
    exfalso
    rcases i with ⟨n, d, inp, imp, sps, mods, imprt⟩
    simp only [Instrument.mk.sizeOf_spec] at hi
    omega
  | succ fuel ih =>
    intro i hi j hj
    rcases i with ⟨n, d, inp, imp, sps, mods, imprt⟩
    match mods with
    | none =>
      simp [buildInstrument] at hj
      simp [hj]
    | some ms =>
      have hsub : ∀ m ∈ ms,
          ∀ k ∈ (buildInstrument bundler m).snd,
            sizeOf k ≤ sizeOf (Instrument.mk n d inp imp sps (some ms) imprt) := by
        intro m hm k hk
        have hms : sizeOf m < sizeOf (Instrument.mk n d inp imp sps (some ms) imprt) :=
          sizeOf_lt_of_mem_modules hm
        have hfuel : sizeOf m ≤ fuel := by omega
        have hk' := ih m hfuel k hk
        omega
      have htr : ∀ k ∈ ((buildList bundler ms).map Prod.snd).flatten,
          sizeOf k ≤ sizeOf (Instrument.mk n d inp imp sps (some ms) imprt) := by
        intro k hk
        rw [buildList_eq_map] at hk
        rcases List.mem_flatten.mp hk with ⟨l, hl, hkl⟩
        rcases List.mem_map.mp hl with ⟨p, hp, rfl⟩
        rcases List.mem_map.mp hp with ⟨m, hm, rfl⟩
        exact hsub m hm k hkl
      simp only [buildInstrument] at hj
      rcases hfind : (((buildList bundler ms).map Prod.fst).find?
          (fun res => !res.errors.isEmpty)) with _ | res <;>
        rw [hfind] at hj
      · rcases List.mem_append.mp hj with hj' | hj'
        · exact htr j hj'
        · rw [List.mem_singleton.mp hj']
      · exact htr j hj

end Legacy

/-- C5: the set of instruments handed to the build driver is exactly the
configured instruments whose name satisfies the filter predicate, all of
them when no filter is given; and for the config `{DisplayUnits, CTP, ISI}`
with a filter matching only `"ISI"`, exactly the one instrument `ISI` is
built. -/
theorem C5_filter_selects_exactly_matching :
    (∀ (instruments : List Mach.Instrument) (filter : Option (String → Bool))
        (i : Mach.Instrument),
      i ∈ Mach.filteredInstruments instruments filter ↔
        i ∈ instruments ∧
          (match filter with | some test => test i.name = true | none => True)) ∧
    (∀ instruments : List Mach.Instrument,
      Mach.filteredInstruments instruments none = instruments) ∧
    (Mach.filteredInstruments Mach.threeInstrumentConfig.instruments
        (some (fun name => name == "ISI"))).map Mach.Instrument.name = ["ISI"] := by
  refine ⟨fun instruments filter i => ?_, fun instruments => ?_, by decide⟩
  · cases filter with
    | none => simp [Mach.filteredInstruments]
    | some test => simp [Mach.filteredInstruments]
  · simp [Mach.filteredInstruments]

/-- C2: evaluation of the exit-code logic at a run where the filter selects
only instrument `A` of `{A, B}` and every selected instrument builds
successfully: every settled result is `"fulfilled"`, yet the `build` action
still exits non-zero, because `index.ts` compares the number of fulfilled
results of the *filtered* run against `config.instruments.length`, the
*unfiltered* count. -/
theorem C2_exit_nonzero_despite_filtered_success :
    Mach.machBuildStatuses Mach.filterOnlyAArgs (fun _ => true) = [true] ∧
    Mach.buildActionExitNonzero Mach.filterOnlyAArgs (fun _ => true) = true := by
  decide

/-- C1: for an instrument with nested modules, if some submodule build
fails (the first submodule result with a non-empty error list exists),
then the parent's result is exactly that submodule result — the parent is
reported failed with the submodule's errors — the bundler-invocation
trace consists of the submodules' invocations only, and the parent itself
is never handed to the bundler; when instead every submodule succeeds,
the parent's own bundling runs, and it runs after all submodule
invocations (it is the final element of the trace). -/
theorem C1_submodule_failfast
    (bundler : Legacy.Instrument → Legacy.BuildRes) (i : Legacy.Instrument)
    (ms : List Legacy.Instrument) (hmods : i.modules = some ms) :
    (∀ res : Legacy.BuildRes,
      (ms.map fun m => (Legacy.buildInstrument bundler m).fst).find?
          (fun r => !r.errors.isEmpty) = some res →
        Legacy.buildInstrument bundler i =
          (res, (ms.map fun m => (Legacy.buildInstrument bundler m).snd).flatten) ∧
        res.errors ≠ [] ∧
        i ∉ (Legacy.buildInstrument bundler i).snd) ∧
    ((∀ m ∈ ms, (Legacy.buildInstrument bundler m).fst.errors = []) →
      Legacy.buildInstrument bundler i =
        (bundler i,
          (ms.map fun m => (Legacy.buildInstrument bundler m).snd).flatten ++ [i])) := by
  rcases i with ⟨n, d, inp, imp, sps, mods, imprt⟩
  rcases mods with _ | ms'
  · exact absurd hmods (by simp [Legacy.Instrument.modules])
  · have hms : ms' = ms := by
      simpa [Legacy.Instrument.modules] using hmods
    subst hms
    have hmapfst : ((Legacy.buildList bundler ms').map Prod.fst) =
        ms'.map fun m => (Legacy.buildInstrument bundler m).fst := by
      rw [Legacy.buildList_eq_map, List.map_map]
      rfl
    have hmapsnd : ((Legacy.buildList bundler ms').map Prod.snd) =
        ms'.map fun m => (Legacy.buildInstrument bundler m).snd := by
      rw [Legacy.buildList_eq_map, List.map_map]
      rfl
    constructor
    · intro res hfind
      have heq : Legacy.buildInstrument bundler
          (Legacy.Instrument.mk n d inp imp sps (some ms') imprt) =
          (res, (ms'.map fun m => (Legacy.buildInstrument bundler m).snd).flatten) := by
        rw [Legacy.buildInstrument, hmapsnd]
        rw [hmapfst, hfind]
      refine ⟨heq, ?_, ?_⟩
      · have := List.find?_some hfind
        simpa [List.isEmpty_iff] using this
      · rw [heq]
        intro hmem
        simp only [List.mem_flatten, List.mem_map] at hmem
        rcases hmem with ⟨t, ⟨m, hm, hmt⟩, hjt⟩
        have hsz : sizeOf (Legacy.Instrument.mk n d inp imp sps (some ms') imprt) ≤ sizeOf m := by
          have := Legacy.buildTrace_sizeOf bundler (sizeOf m) m le_rfl _ (by rw [← hmt] at hjt; exact hjt)
          exact this
        have hlt : sizeOf m < sizeOf (Legacy.Instrument.mk n d inp imp sps (some ms') imprt) :=
          Legacy.sizeOf_lt_of_mem_modules hm
        omega
    · intro hall
      have hnone : ((Legacy.buildList bundler ms').map Prod.fst).find?
          (fun r => !r.errors.isEmpty) = none := by
        rw [hmapfst]
        rw [List.find?_eq_none]
        intro r hr
        rcases List.mem_map.mp hr with ⟨m, hm, rfl⟩
        simp [List.isEmpty_iff, hall m hm]
      rw [Legacy.buildInstrument, hnone, hmapsnd]

/-- C1 witness: the concrete two-submodule instrument where `FailMod`
fails: the parent's result carries the failing submodule's error and
the parent is never handed to the bundler. -/
theorem C1_submodule_failfast_witness :
    (Legacy.buildInstrument Legacy.failingBundler Legacy.parentWithFailingModule).fst.errors ≠ [] ∧
    Legacy.parentWithFailingModule ∉
      (Legacy.buildInstrument Legacy.failingBundler Legacy.parentWithFailingModule).snd := by
  have h := (C1_submodule_failfast Legacy.failingBundler Legacy.parentWithFailingModule
      [Legacy.goodChild, Legacy.failChild] rfl).1
      ⟨[⟨"Could not resolve entry"⟩]⟩ (by decide)
  refine ⟨?_, h.2.2⟩
  rw [h.1]
  exact h.2.1

/-- C8 counterexample: with working directory `/a`, the input
`/a/../x/a/b` resolves to `/x/a/b`, which embeds the working directory at
offset 2; re-resolving therefore takes the suffix `/a/b` and yields a
different path, so `resolveFilename` is not idempotent as claimed. -/
theorem C8_resolveFilename_not_idempotent :
    Esbuild.resolveFilename "/a".data (Esbuild.resolveFilename "/a".data "/a/../x/a/b".data) ≠
      Esbuild.resolveFilename "/a".data "/a/../x/a/b".data := by
  decide

/-- C8 amended: `resolveFilename` is idempotent for every input whose
once-resolved form does not embed the working directory at a positive
offset (it either starts with it or does not contain it at all); and when
the input embeds the working directory as a substring, the suffix starting
at the first such offset is what gets resolved. -/
theorem C8_resolveFilename_idempotent_amended (cwd input : NodePath.Path)
    (h : NodePath.jsIndexOf (Esbuild.resolveFilename cwd input) cwd = none ∨
        NodePath.jsIndexOf (Esbuild.resolveFilename cwd input) cwd = some 0) :
    Esbuild.resolveFilename cwd (Esbuild.resolveFilename cwd input) =
      Esbuild.resolveFilename cwd input ∧
    (∀ k, NodePath.jsIndexOf input cwd = some k →
      Esbuild.resolveFilename cwd input = NodePath.pathResolve cwd (input.drop k)) := by
  obtain ⟨q, hq⟩ := Esbuild.resolveFilename_is_normAbs cwd input
  constructor
  · rw [Esbuild.resolveFilename]
    rcases h with h | h <;> rw [h]
    · rw [hq]
      exact NodePath.pathResolve_of_normAbs cwd q
    · show NodePath.pathResolve cwd (List.drop 0 (Esbuild.resolveFilename cwd input)) =
        Esbuild.resolveFilename cwd input
      rw [List.drop_zero, hq]
      exact NodePath.pathResolve_of_normAbs cwd q
  · intro k hk
    rw [Esbuild.resolveFilename, hk]

/-- C8 witness: for the working directory `/w` and the relative input
`src/a.ts`, the resolved form `/w/src/a.ts` embeds `/w` only at offset 0,
and re-resolving it is a no-op. -/
theorem C8_resolveFilename_idempotent_witness :
    (NodePath.jsIndexOf (Esbuild.resolveFilename "/w".data "src/a.ts".data) "/w".data = none ∨
      NodePath.jsIndexOf (Esbuild.resolveFilename "/w".data "src/a.ts".data) "/w".data = some 0) ∧
    Esbuild.resolveFilename "/w".data (Esbuild.resolveFilename "/w".data "src/a.ts".data) =
      Esbuild.resolveFilename "/w".data "src/a.ts".data :=
  ⟨by decide,
    (C8_resolveFilename_idempotent_amended "/w".data "src/a.ts".data (by decide)).1⟩

namespace Watch

open NodePath

theorem find_keyed (L : List Path) (F : Path → List Path) (k : Path) :
    (L.map fun d => (d, F d)).find? (fun e => decide (e.fst = k)) =
      if k ∈ L then some (k, F k) else none := by
  induction L with
  | nil => simp
  | cons d L ih =>
    rw [List.map_cons, List.find?_cons]
    by_cases hd : d = k
    · subst hd
      simp
    · have : (decide ((d, F d).fst = k)) = false := by simp [hd]
      rw [this, ih]
      by_cases hk : k ∈ L
      · rw [if_pos hk, if_pos (by simp [hk])]
      · rw [if_neg hk, if_neg (by simp [hd, hk, Ne.symm])]

theorem snapshotHas_iff (w : List Path) (x : Path) :
    snapshotHas (getWatched w) x = true ↔
      ∃ p ∈ w, pathDirname p = pathDirname x ∧ pathBasename p = pathBasename x := by
  rw [snapshotHas, getWatched, find_keyed]
  by_cases h : pathDirname x ∈ (w.map pathDirname).dedup
  · rw [if_pos h]
    simp only [decide_eq_true_eq, List.mem_map, List.mem_filter]
    constructor
    · rintro ⟨p, ⟨hp, hpd⟩, hpb⟩
      exact ⟨p, hp, hpd, hpb⟩
    · rintro ⟨p, hp, hpd, hpb⟩
      exact ⟨p, ⟨hp, hpd⟩, hpb⟩
  · rw [if_neg h]
    simp only [Bool.false_eq_true, false_iff]
    rintro ⟨p, hp, hpd, hpb⟩
    exact h (List.mem_dedup.mpr (hpd ▸ List.mem_map_of_mem pathDirname hp))

theorem snapshotHas_mem (w : List Path) (x : Path)
    (hw : ∀ p ∈ w, canonicalPath p) (hx : canonicalPath x) :
    snapshotHas (getWatched w) x = true ↔ x ∈ w := by
  rw [snapshotHas_iff w x]
  constructor
  · rintro ⟨p, hp, hpd, hpb⟩
    have hc := hw p hp
    rw [canonicalPath, hpd, hpb, hx] at hc
    exact hc ▸ hp
  · intro hmem
    exact ⟨x, hmem, rfl, rfl⟩

theorem mem_joined_getWatched (w : List Path) (x : Path)
    (hw : ∀ p ∈ w, canonicalPath p) :
    (x ∈ (((getWatched w).map fun e => e.snd.map fun b => pathJoin e.fst b).flatten) ↔
      x ∈ w) := by
  constructor
  · intro hx
    rcases List.mem_flatten.mp hx with ⟨l, hl, hxl⟩
    rcases List.mem_map.mp hl with ⟨e, he, rfl⟩
    rcases List.mem_map.mp hxl with ⟨b, hb, rfl⟩
    rcases List.mem_map.mp he with ⟨d, _, rfl⟩
    rcases List.mem_map.mp hb with ⟨p, hp, rfl⟩
    rcases List.mem_filter.mp hp with ⟨hpw, hpd⟩
    have hpd' : pathDirname p = d := of_decide_eq_true hpd
    rw [← hpd', hw p hpw]
    exact hpw
  · intro hx
    refine List.mem_flatten.mpr
      ⟨(w.filter fun p => decide (pathDirname p = pathDirname x)).map
          fun b => pathJoin (pathDirname x) (pathBasename b), ?_, ?_⟩
    · refine List.mem_map.mpr ⟨(pathDirname x,
        (w.filter fun p => decide (pathDirname p = pathDirname x)).map pathBasename), ?_, ?_⟩
      · exact List.mem_map.mpr ⟨pathDirname x,
          List.mem_dedup.mpr (List.mem_map_of_mem pathDirname hx), rfl⟩
      · simp [List.map_map, Function.comp]
    · refine List.mem_map.mpr ⟨x, List.mem_filter.mpr ⟨hx, by simp⟩, hw x hx⟩

theorem mem_unwatchedFiles (w b : List Path) (x : Path)
    (hw : ∀ p ∈ w, canonicalPath p) :
    x ∈ unwatchedFiles w b ↔ x ∈ w ∧ x ∉ b := by
  rw [unwatchedFiles, List.mem_filter, mem_joined_getWatched w x hw]
  simp

theorem mem_addedFiles (w b : List Path) (x : Path)
    (hw : ∀ p ∈ w, canonicalPath p) (hb : ∀ p ∈ b, canonicalPath p) :
    x ∈ addedFiles w b ↔ x ∈ b ∧ x ∉ w := by
  rw [addedFiles, List.mem_filter]
  constructor
  · rintro ⟨hxb, hsnap⟩
    refine ⟨hxb, fun hxw => ?_⟩
    have htrue : snapshotHas (getWatched w) x = true :=
      (snapshotHas_mem w x hw (hb x hxb)).mpr hxw
    rw [htrue] at hsnap
    simp at hsnap
  · rintro ⟨hxb, hxw⟩
    refine ⟨hxb, ?_⟩
    cases hsnap : snapshotHas (getWatched w) x with
    | false => rfl
    | true => exact absurd ((snapshotHas_mem w x hw (hb x hxb)).mp hsnap) hxw

end Watch

/-- C3: after a successful rebuild the watcher's set is updated to equal
exactly the set of input files of the new manifest — newly referenced
files are added, files no longer referenced are unwatched, and files
present in both old and new sets are touched by neither the add list nor
the unwatch list — provided all paths involved are canonical (which the
absolute normalised outputs of `resolveFilename` are). -/
theorem C3_watch_set_exactly_new_manifest (w b : List NodePath.Path)
    (hw : ∀ p ∈ w, NodePath.canonicalPath p)
    (hb : ∀ p ∈ b, NodePath.canonicalPath p) :
    (∀ x, x ∈ Watch.watchDiffStep w b ↔ x ∈ b) ∧
    (∀ x, x ∈ Watch.addedFiles w b ↔ x ∈ b ∧ x ∉ w) ∧
    (∀ x, x ∈ Watch.unwatchedFiles w b ↔ x ∈ w ∧ x ∉ b) := by
  refine ⟨fun x => ?_, fun x => Watch.mem_addedFiles w b x hw hb,
    fun x => Watch.mem_unwatchedFiles w b x hw⟩
  rw [Watch.watchDiffStep, List.mem_filter, List.mem_append]
  constructor
  · rintro ⟨hx1 | hx2, hnu⟩
    · by_contra hxb
      have : x ∈ Watch.unwatchedFiles w b :=
        (Watch.mem_unwatchedFiles w b x hw).mpr ⟨hx1, hxb⟩
      simp [this] at hnu
    · exact ((Watch.mem_addedFiles w b x hw hb).mp hx2).1
  · intro hxb
    have hnu : x ∉ Watch.unwatchedFiles w b := fun hx =>
      ((Watch.mem_unwatchedFiles w b x hw).mp hx).2 hxb
    refine ⟨?_, by simpa using hnu⟩
    by_cases hxw : x ∈ w
    · exact Or.inl hxw
    · exact Or.inr ((Watch.mem_addedFiles w b x hw hb).mpr ⟨hxb, hxw⟩)

/-- C3 witness: starting from watched `{/w/a.ts, /w/b.ts}` with a rebuilt
manifest `{/w/a.ts, /w/c.ts}`, the watcher ends at exactly
`{/w/a.ts, /w/c.ts}`: `c` is watched, `b` is not, `a` still is. -/
theorem C3_watch_set_exactly_new_manifest_witness :
    ("/w/a.ts".data ∈ Watch.watchDiffStep Watch.exampleOldWatched Watch.exampleNewBundled) ∧
    ("/w/c.ts".data ∈ Watch.watchDiffStep Watch.exampleOldWatched Watch.exampleNewBundled) ∧
    ("/w/b.ts".data ∉ Watch.watchDiffStep Watch.exampleOldWatched Watch.exampleNewBundled) := by
  have h := C3_watch_set_exactly_new_manifest Watch.exampleOldWatched Watch.exampleNewBundled
    (by decide) (by decide)
  refine ⟨(h.1 _).mpr (by decide), (h.1 _).mpr (by decide), fun hmem => ?_⟩
  exact absurd ((h.1 _).mp hmem) (by decide)

/-- C6: a failed rebuild leaves the watch state untouched — the handler
only reports the structured errors, the watched set is unchanged and no
teardown happens — and every change notification in a stream triggers a
rebuild attempt regardless of earlier failures. -/
theorem C6_failed_rebuild_keeps_subscription :
    (∀ (cwd : NodePath.Path) (st : Watch.WatchState) (errors : List Esbuild.Message),
      Watch.onChange cwd st (.failure errors) =
        ⟨st, true, errors⟩) ∧
    (∀ (cwd : NodePath.Path) (st : Watch.WatchState)
        (events : List Watch.RebuildOutcome),
      (Watch.processEvents cwd st events).snd = events.length) := by
  constructor
  · intro cwd st errors
    rfl
  · intro cwd st events
    induction events generalizing st with
    | nil => rfl
    | cons e es ih =>
      rw [Watch.processEvents, List.length_cons, ih]

/-- C9: neither `onEnd` plugin writes anything when the build result
carries at least one error: `writeMetafile` writes no `build_meta.json`
and `writePackageSources` writes no package css/js/harness/html files. -/
theorem C9_no_writes_on_failed_build (outfile : NodePath.Path)
    (result : Plugins.OnEndResult) (cwd : NodePath.Path) (args : Mach.MachArgs)
    (instrument : Mach.Instrument) (h : result.errors ≠ []) :
    Plugins.writeMetafileWrites outfile result = [] ∧
    Plugins.writePackageSourcesWrites cwd args instrument outfile result = [] := by
  have hlen : ¬(result.errors.length = 0) := by
    simpa [List.length_eq_zero] using h
  constructor
  · rw [Plugins.writeMetafileWrites, if_neg hlen]
  · rw [Plugins.writePackageSourcesWrites]
    rcases instrument with ⟨n, idx, sp, ms, rs⟩
    rcases sp with _ | sp
    · rfl
    · simp only [Mach.Instrument.simulatorPackage]
      rw [if_neg hlen]

/-- C9 witness: a failed result (one error) with a react-packaged
instrument produces no writes from either plugin. -/
theorem C9_no_writes_on_failed_build_witness :
    Plugins.writeMetafileWrites "/w/bundles/PFD/bundle.js".data Plugins.failedResult = [] ∧
    Plugins.writePackageSourcesWrites "/w".data { config := Mach.twoInstrumentConfig }
      Plugins.packagedInstrument "/w/bundles/PFD/bundle.js".data Plugins.failedResult = [] :=
  C9_no_writes_on_failed_build "/w/bundles/PFD/bundle.js".data Plugins.failedResult
    "/w".data { config := Mach.twoInstrumentConfig } Plugins.packagedInstrument
    (by decide)

/-- C4: evaluation of the environment-substitution loader at the failing
input.  The file contains a defined reference whose replacement shortens
the contents and an undefined reference after it; computing the
undefined reference's warning location walks the lazily captured,
already-substituted `lines` snapshot with the *original* match index,
steps past the last line, and the loader throws instead of returning a
warning — the build fails fatally, contradicting the claim. -/
theorem C4_undefined_reference_crashes_build :
    Plugins.environmentLoader Plugins.crashEnv "/proj/src/foo.ts" "file"
      Plugins.crashContents = .crash := by
  decide

/-- C10: a file whose path contains `node_modules` is returned verbatim:
the loader returns the contents unchanged with no warnings, regardless of
the environment references the contents hold. -/
theorem C10_node_modules_left_verbatim (env : String → Option String)
    (file nmspace : String) (contents : NodePath.Path)
    (h : (NodePath.jsIndexOf file.data "node_modules".data).isSome = true) :
    Plugins.environmentLoader env file nmspace contents = .ok contents [] := by
  rw [Plugins.environmentLoader, if_pos h]

/-- C10 witness: a `node_modules` file full of env references passes
through unchanged with no warnings. -/
theorem C10_node_modules_left_verbatim_witness :
    ((NodePath.jsIndexOf "/proj/node_modules/lib/index.ts".data "node_modules".data).isSome
      = true) ∧
    Plugins.environmentLoader (fun _ => none) "/proj/node_modules/lib/index.ts" "file"
        "export const x = process.env.X + process.env.Y;".data =
      .ok "export const x = process.env.X + process.env.Y;".data [] :=
  ⟨by decide,
    C10_node_modules_left_verbatim (fun _ => none) "/proj/node_modules/lib/index.ts" "file"
      "export const x = process.env.X + process.env.Y;".data (by decide)⟩

namespace Schema

/-- Sanity check of the parser model: a well-formed acyclic store (an
instrument with one submodule carrying `resolve`) validates to the
expected typed tree at any sufficient depth. -/
theorem parseInstrument_acyclic_ok :
    parseInstrument
      [ .vobj [("name", 1), ("index", 2), ("modules", 3)],
        .vstr "A",
        .vstr "src/A/index.tsx",
        .varr [4],
        .vobj [("name", 5), ("index", 6), ("resolve", 7)],
        .vstr "Mod",
        .vstr "src/Mod/index.ts",
        .vstr "@mods/mod" ] 2 0
      = .ok (.mk "A" "src/A/index.tsx" none
          (some [.mk "Mod" "src/Mod/index.ts" none none (some "@mods/mod")]) none) := by
  rw [parseInstrument]
  simp [parseReqField, parseOptField, getField, parseString,
    parseInstrumentList, parseInstrument, PResult.andThen]

end Schema

/-- C7: feeding the recursive `InstrumentSchema` a cyclic Instrument tree
(the root's `modules` array contains the root itself) never yields a
verdict: for every recursion-depth fuel the parse is still out of fuel,
i.e. the unfueled zod validation recurses without bound instead of
terminating with a validation error. -/
theorem C7_cyclic_tree_validation_recurses_unboundedly :
    ∀ fuel : Nat, Schema.parseInstrument Schema.cyclicStore fuel 0 = .outOfFuel := by
  intro fuel
  induction fuel with
  | zero => simp [Schema.parseInstrument]
  | succ n ih =>
    simp only [Schema.cyclicStore] at ih
    rw [Schema.parseInstrument]
    simp [Schema.parseReqField, Schema.parseOptField, Schema.getField,
      Schema.parseString, Schema.cyclicStore, Schema.parseInstrumentList,
      Schema.PResult.andThen, ih]
